import Mathlib

/-!
Verification of the crypto-wallet core: a shallow embedding of the
coin-selection / fee engine (`WalletTransactionService`), the UTXO
locking and broadcast logic, and the BIP44 gap-limit address scanner
(`WalletScannerService`), together with proofs of the specified
properties.

Conventions of the embedding:
* satoshi amounts are integers (`ℤ`); derivation indices are `ℕ`;
* the JavaScript `number` fee rate (sat/vByte, possibly fractional) is a
  rational `ℚ`, and `Math.ceil` is `Int.ceil`;
* the locked-UTXO `Set<string>` is a `Finset String` of `txHash:outputIndex`
  keys;
* BIP32 address derivation (`BitcoinService.deriveAddressAtIndex`) is pure
  and deterministic in the source; it is abstracted here as an explicit
  function parameter, since the claims do not depend on the concrete
  secp256k1 computation;
* the asynchronous chain-data client is abstracted as a function from an
  address to the data the scanner reads from the response, and the
  broadcast provider outcome as an `Except` value.
-/

namespace CryptoWallet

/-- P2WPKH input size in vbytes (`P2WPKH_INPUT_SIZE` in the source). -/
def P2WPKH_INPUT_SIZE : ℕ := 68

/-- P2WPKH output size in vbytes (`P2WPKH_OUTPUT_SIZE` in the source). -/
def P2WPKH_OUTPUT_SIZE : ℕ := 31

/-- Transaction overhead in vbytes (`TX_OVERHEAD` in the source). -/
def TX_OVERHEAD : ℕ := 11

/-- Dust threshold in satoshis (`DUST_THRESHOLD` in the source). -/
def DUST_THRESHOLD : ℤ := 546

/-- BIP44 gap limit (`GAP_LIMIT` in wallet-scanner.ts). -/
def GAP_LIMIT : ℕ := 20

/-- Scanner batch size (`BATCH_SIZE` in wallet-scanner.ts). -/
def BATCH_SIZE : ℕ := 10

/-- Address branch, `'receive' | 'change'` in wallet.interfaces.ts. -/
inductive AddressBranch where
  | receive : AddressBranch
  | change : AddressBranch
deriving DecidableEq, Repr

/-- A derived HD address (`DerivedAddress` in wallet.interfaces.ts). -/
structure DerivedAddress where
  address : String
  derivationPath : String
  index : ℕ
  branch : AddressBranch
deriving DecidableEq, Repr

/-- An unspent transaction output (`UTXO` in wallet.interfaces.ts). -/
structure UTXO where
  txHash : String
  outputIndex : ℕ
  value : ℤ
  scriptPubKey : String
  address : String
  derivationPath : String
  confirmations : ℕ
deriving DecidableEq, Repr

/-- A scanned address snapshot (`AddressBalance` in wallet.interfaces.ts). -/
structure AddressBalance where
  address : String
  derivationPath : String
  index : ℕ
  branch : AddressBranch
  balanceSatoshis : ℤ
  transactionCount : ℕ
deriving DecidableEq, Repr

/-- Result of coin selection (`CoinSelectionResult` in the source);
`changeAddress` is `Option` because the TypeScript field is
`DerivedAddress | null`. -/
structure CoinSelectionResult where
  selectedUtxos : List UTXO
  totalInputValue : ℤ
  fee : ℤ
  changeAmount : ℤ
  changeAddress : Option DerivedAddress
  dustAddedToFee : ℤ
deriving DecidableEq, Repr

/-- Result of broadcasting (`BroadcastResult` in the source). -/
structure BroadcastResult where
  success : Bool
  txHash : Option String
  error : Option String
deriving DecidableEq, Repr

/-- The state read and written by the transaction service: the session
signals it consumes (`mnemonic`, `utxos`, `highestUsedChangeIndex` of
`WalletSessionService`) plus its own `#lockedUtxos` signal. -/
structure WalletState where
  mnemonic : Option String
  utxos : List UTXO
  highestUsedChangeIndex : ℤ
  lockedUtxos : Finset String
deriving DecidableEq

/-- Key of a UTXO in the locked set (`#getUtxoKey`): `txHash:outputIndex`. -/
def getUtxoKey (u : UTXO) : String :=
  u.txHash ++ ":" ++ toString u.outputIndex

/-- `WalletSessionService.getSpendableUtxos`: UTXOs with at least one
confirmation. -/
def sessionSpendableUtxos (s : WalletState) : List UTXO :=
  s.utxos.filter (fun u => 0 < u.confirmations)

/-- `WalletTransactionService.getSpendableUtxos`: the session's spendable
UTXOs that are not in the locked set. -/
def getSpendableUtxos (s : WalletState) : List UTXO :=
  (sessionSpendableUtxos s).filter (fun u => ¬ getUtxoKey u ∈ s.lockedUtxos)

/-- `WalletSessionService.getNextChangeAddress`: `null` without a mnemonic,
otherwise the change-branch address at `highestUsedChangeIndex + 1`.
`derive m i` abstracts `deriveAddressAtIndex(m, i, 'mainnet', 'change')`. -/
def getNextChangeAddress (derive : String → ℤ → DerivedAddress) (s : WalletState) :
    Option DerivedAddress :=
  match s.mnemonic with
  | none => none
  | some m => some (derive m (s.highestUsedChangeIndex + 1))

/-- `WalletTransactionService.estimateTxSize`: virtual size in vbytes. -/
def estimateTxSize (numInputs numOutputs : ℕ) : ℕ :=
  TX_OVERHEAD + numInputs * P2WPKH_INPUT_SIZE + numOutputs * P2WPKH_OUTPUT_SIZE

/-- `WalletTransactionService.calculateFee`: `Math.ceil(txSize * feeRate)`. -/
def calculateFee (numInputs numOutputs : ℕ) (feeRate : ℚ) : ℤ :=
  ⌈(estimateTxSize numInputs numOutputs : ℚ) * feeRate⌉

/-- Effective value of a UTXO at a fee rate: `value - inputCost` with
`inputCost = P2WPKH_INPUT_SIZE * feeRate` (from `selectCoins`). -/
def effectiveValue (feeRate : ℚ) (u : UTXO) : ℚ :=
  (u.value : ℚ) - (P2WPKH_INPUT_SIZE : ℚ) * feeRate

/-- The comparator `(a, b) => b.effectiveValue - a.effectiveValue` used by
`selectCoins` sorts so that larger effective values come first. -/
def descByEff (feeRate : ℚ) (a b : UTXO) : Prop :=
  effectiveValue feeRate b ≤ effectiveValue feeRate a

instance (feeRate : ℚ) : DecidableRel (descByEff feeRate) := fun a b => by
  unfold descByEff
  infer_instance

instance (feeRate : ℚ) : IsTotal UTXO (descByEff feeRate) :=
  ⟨fun _ _ => le_total _ _⟩

instance (feeRate : ℚ) : IsTrans UTXO (descByEff feeRate) :=
  ⟨fun _ _ _ h h' => le_trans h' h⟩

/-- The candidate list of `selectCoins`: spendable UTXOs with positive
effective value, sorted descending by effective value. -/
def candidateUtxos (feeRate : ℚ) (spendableUtxos : List UTXO) : List UTXO :=
  (spendableUtxos.filter (fun u => 0 < effectiveValue feeRate u)).insertionSort
    (descByEff feeRate)

/-- The accumulation loop of `selectCoins`: push each candidate, recompute
both fee scenarios, and return at the first candidate where either the
with-change remainder clears the dust threshold or the without-change
remainder is non-negative. -/
def selectLoop (amountSatoshis : ℤ) (feeRate : ℚ) (changeAddr : Option DerivedAddress) :
    List UTXO → List UTXO → ℤ → Option CoinSelectionResult
  | [], _, _ => none
  | u :: rest, selected, totalInputValue =>
    let selected' := selected ++ [u]
    let totalInputValue' := totalInputValue + u.value
    let feeWithChange := calculateFee selected'.length 2 feeRate
    let feeWithoutChange := calculateFee selected'.length 1 feeRate
    let remainingWithChange := totalInputValue' - amountSatoshis - feeWithChange
    let remainingWithoutChange := totalInputValue' - amountSatoshis - feeWithoutChange
    if DUST_THRESHOLD ≤ remainingWithChange then
      some ⟨selected', totalInputValue', feeWithChange, remainingWithChange, changeAddr, 0⟩
    else if 0 ≤ remainingWithoutChange then
      some ⟨selected', totalInputValue', totalInputValue' - amountSatoshis, 0, none,
        if 0 < remainingWithoutChange then remainingWithoutChange else 0⟩
    else
      selectLoop amountSatoshis feeRate changeAddr rest selected' totalInputValue'

/-- `WalletTransactionService.selectCoins` (the greedy effective-value
algorithm of src/unnamed/part_007). `getNextChangeAddress` is pure, so
computing it up front is equivalent to the source's call inside the loop. -/
def selectCoins (derive : String → ℤ → DerivedAddress) (s : WalletState)
    (amountSatoshis : ℤ) (feeRate : ℚ) : Option CoinSelectionResult :=
  let spendableUtxos := getSpendableUtxos s
  if spendableUtxos.isEmpty then none
  else
    let candidates := candidateUtxos feeRate spendableUtxos
    if candidates.isEmpty then none
    else selectLoop amountSatoshis feeRate (getNextChangeAddress derive s) candidates [] 0

/-- `WalletTransactionService.getMaxSendableAmount`: total spendable value
minus the all-inputs single-output fee, clamped at zero. -/
def getMaxSendableAmount (s : WalletState) (feeRate : ℚ) : ℤ :=
  let spendableUtxos := getSpendableUtxos s
  if spendableUtxos.isEmpty then 0
  else
    let totalValue := (spendableUtxos.map UTXO.value).sum
    let fee := calculateFee spendableUtxos.length 1 feeRate
    max 0 (totalValue - fee)

/-- `WalletTransactionService.lockUtxos`: add each UTXO's key to the set. -/
def lockUtxos (locked : Finset String) (utxos : List UTXO) : Finset String :=
  utxos.foldl (fun acc u => insert (getUtxoKey u) acc) locked

/-- `WalletTransactionService.unlockUtxos`: delete each UTXO's key. -/
def unlockUtxos (locked : Finset String) (utxos : List UTXO) : Finset String :=
  utxos.foldl (fun acc u => acc.erase (getUtxoKey u)) locked

/-- The provider error object observed in the broadcast `catchError`
handler: `error?.error` and `error?.message`. -/
structure ApiError where
  errorField : Option String
  message : Option String
deriving DecidableEq, Repr

/-- JavaScript `a || b` for an optional string `a` (empty string is falsy). -/
def orElseTruthy (a : Option String) (b : String) : String :=
  match a with
  | some str => if str = "" then b else str
  | none => b

/-- The message built by `error?.error || error?.message || 'Broadcast failed'`. -/
def broadcastErrorMessage (e : ApiError) : String :=
  orElseTruthy e.errorField (orElseTruthy e.message "Broadcast failed")

/-- `WalletTransactionService.broadcastTransaction`: lock the UTXOs, then
either succeed with the trimmed hash or, on provider rejection, unlock the
UTXOs and return a failure result (the `catchError` branch — no exception
reaches the caller, which is why the embedding is a total function). -/
def broadcastTransaction (s : WalletState) (txHex : String) (usedUtxos : List UTXO)
    (apiOutcome : Except ApiError String) : WalletState × BroadcastResult :=
  let lockedDuringBroadcast := lockUtxos s.lockedUtxos usedUtxos
  match apiOutcome with
  | Except.ok txHash =>
    ({ s with lockedUtxos := lockedDuringBroadcast },
      ⟨true, some txHash.trim, none⟩)
  | Except.error e =>
    ({ s with lockedUtxos := unlockUtxos lockedDuringBroadcast usedUtxos },
      ⟨false, none, some (broadcastErrorMessage e)⟩)

/-- Scanner iteration state (`ScanState` in wallet-scanner.ts). -/
structure ScanState where
  currentIndex : ℕ
  consecutiveUnused : ℕ
  usedAddresses : List AddressBalance
  done : Bool
deriving DecidableEq, Repr

/-- Per-branch scan result (`BranchScanResult` in wallet-scanner.ts). -/
structure BranchScanResult where
  usedAddresses : List AddressBalance
  highestUsedIndex : ℤ
deriving DecidableEq, Repr

/-- The `for` loop of `#processBatchResult`: `fallthroughIndex` is the
`state.currentIndex + BATCH_SIZE` used when the batch is exhausted without
reaching the gap limit. -/
def processGo (fallthroughIndex : ℕ) (consecutiveUnused : ℕ)
    (usedAddresses : List AddressBalance) : List AddressBalance → ScanState
  | [] => ⟨fallthroughIndex, consecutiveUnused, usedAddresses, false⟩
  | result :: rest =>
    let consecutiveUnused' :=
      if 0 < result.transactionCount then 0 else consecutiveUnused + 1
    let usedAddresses' :=
      if 0 < result.transactionCount then usedAddresses ++ [result] else usedAddresses
    if GAP_LIMIT ≤ consecutiveUnused' then
      ⟨result.index + 1, consecutiveUnused', usedAddresses', true⟩
    else
      processGo fallthroughIndex consecutiveUnused' usedAddresses' rest

/-- `WalletScannerService.#processBatchResult`. -/
def processBatchResult (state : ScanState) (batchResults : List AddressBalance) : ScanState :=
  processGo (state.currentIndex + BATCH_SIZE) state.consecutiveUnused
    state.usedAddresses batchResults

/-- Chain data the scanner reads for one address: `final_balance` and
`n_tx` from the multiaddr response. -/
structure ChainInfo where
  balance : ℤ
  txCount : ℕ
deriving DecidableEq, Repr

/-- `WalletScannerService.#scanBatch`: derive `BATCH_SIZE` addresses from
`startIndex`, look up each one's balance data, and zip into
`AddressBalance` records. `derive` abstracts `deriveAddresses` (one index
at a time) and `chain` the balance lookup by address. -/
def scanBatch (derive : ℕ → DerivedAddress) (chain : String → ChainInfo)
    (startIndex : ℕ) : List AddressBalance :=
  (List.range BATCH_SIZE).map fun i =>
    let d := derive (startIndex + i)
    let info := chain d.address
    ⟨d.address, d.derivationPath, d.index, d.branch, info.balance, info.txCount⟩

/-- The `expand`/`takeWhile` iteration of `#scanBranch`, with explicit
fuel: states are fed through `processBatchResult` batch after batch until
`done` (the fuel only bounds how many iterations we unroll; `none` means
the bound was hit first). -/
def scanLoop (derive : ℕ → DerivedAddress) (chain : String → ChainInfo) :
    ℕ → ScanState → Option ScanState
  | 0, _ => none
  | fuel + 1, state =>
    if state.done then some state
    else
      scanLoop derive chain fuel
        (processBatchResult state (scanBatch derive chain state.currentIndex))

/-- `Math.max(...usedAddresses.map(a => a.index))` over a non-empty list,
`-1` for the empty list, as in `#scanBranch`'s final `map`. -/
def branchHighestIndex (usedAddresses : List AddressBalance) : ℤ :=
  match usedAddresses with
  | [] => -1
  | a :: rest => rest.foldl (fun m b => max m (b.index : ℤ)) (a.index : ℤ)

/-- `WalletScannerService.#scanBranch`: iterate from the initial state and
package the final state. -/
def scanBranch (derive : ℕ → DerivedAddress) (chain : String → ChainInfo)
    (fuel : ℕ) : Option BranchScanResult :=
  (scanLoop derive chain fuel ⟨0, 0, [], false⟩).map fun finalState =>
    ⟨finalState.usedAddresses, branchHighestIndex finalState.usedAddresses⟩

/-- Replace the locked set of a state (the effect of
`this.#lockedUtxos.set(newSet)`). -/
def withLocked (s : WalletState) (locked : Finset String) : WalletState :=
  { s with lockedUtxos := locked }

/-!
### Concrete scenarios used by witnesses and counterexamples

`wState` is the end-to-end scenario of the specification: three spendable
UTXOs of 100000, 50000 and 10000 satoshis, fee rate 10 sat/vB, send amount
120000 satoshis. `dState` is a dust scenario: one 200000-satoshi UTXO and
amount 198800, so the with-change remainder (−210) is under the dust
threshold while the without-change remainder (100) is not negative.
`pState` has its only UTXO already locked, and `mState` has a UTXO worth
less than the fee to spend it.
-/

def wUtxo1 : UTXO := ⟨"tx1", 0, 100000, "spk1", "addrA", "m/84/0/0/0/0", 1⟩

def wUtxo2 : UTXO := ⟨"tx2", 1, 50000, "spk2", "addrB", "m/84/0/0/0/1", 3⟩

def wUtxo3 : UTXO := ⟨"tx3", 0, 10000, "spk3", "addrC", "m/84/0/0/0/2", 2⟩

def wChange : DerivedAddress := ⟨"chg0", "m/84/0/0/1/0", 0, AddressBranch.change⟩

def wDerive : String → ℤ → DerivedAddress := fun _ _ => wChange

def wState : WalletState := ⟨some "mn", [wUtxo3, wUtxo1, wUtxo2], -1, ∅⟩

def wResult : CoinSelectionResult :=
  ⟨[wUtxo1, wUtxo2], 150000, 2090, 27910, some wChange, 0⟩

/-- The concrete scenario's state with no mnemonic loaded but the UTXO set
still populated (reachable: `login()`'s scan subscription has no
generation guard, so a scan completing after `logout()` commits UTXOs
into a mnemonic-less session). -/
def nState : WalletState := ⟨none, [wUtxo3, wUtxo1, wUtxo2], -1, ∅⟩

/-- The selection `nState` produces: change amount 27910 but a null change
address, because `getNextChangeAddress` returns null without a mnemonic. -/
def nResult : CoinSelectionResult :=
  ⟨[wUtxo1, wUtxo2], 150000, 2090, 27910, none, 0⟩

def dUtxo : UTXO := ⟨"tx9", 2, 200000, "spk9", "addrD", "m/84/0/0/0/7", 6⟩

def dState : WalletState := ⟨some "mn", [dUtxo], -1, ∅⟩

def dResult : CoinSelectionResult := ⟨[dUtxo], 200000, 1200, 0, none, 100⟩

/-- A state with `wUtxo1` both present (confirmed) and already locked. -/
def pState : WalletState := ⟨some "mn", [wUtxo1], -1, {getUtxoKey wUtxo1}⟩

/-- A state whose single spendable UTXO is worth less than the fee for
spending it. -/
def mState : WalletState := ⟨some "mn", [⟨"txm", 0, 10, "spkm", "addrM", "m/84/0/0/0/9", 1⟩], -1, ∅⟩

/-- The provider error used in the broadcast scenarios. -/
def bErr : ApiError := ⟨some "tx rejected", none⟩

/-- The `AddressBalance` record `#scanBatch` builds for one index: derived
address data zipped with the chain client's balance data. -/
def scanRecord (derive : ℕ → DerivedAddress) (chain : String → ChainInfo)
    (i : ℕ) : AddressBalance :=
  ⟨(derive i).address, (derive i).derivationPath, (derive i).index,
    (derive i).branch, (chain (derive i).address).balance,
    (chain (derive i).address).txCount⟩

/-- A synthetic derivation for the scanner witness: the address at index
`i` is the string of `i + 1` copies of `a`. -/
def cDerive : ℕ → DerivedAddress := fun i =>
  ⟨String.mk (List.replicate (i + 1) 'a'), "path", i, AddressBranch.receive⟩

/-- A synthetic chain-data client for the scanner witness: addresses of
length at most 5 (indices 0–4 under `cDerive`) have one transaction and a
1000-satoshi balance, all others are unused. -/
def cChain : String → ChainInfo := fun a =>
  if a.length ≤ 5 then ⟨1000, 1⟩ else ⟨0, 0⟩

/-!
### Characterization of the selection loop

`selectLoop` can only return a result through one of its two `return`
statements; `selectLoop_cases` records the guard and the exact field
values for each, and `selectLoop_take` records that the selected UTXOs are
the accumulator followed by a non-empty prefix of the remaining candidate
list, with `totalInputValue` their value sum.
-/

theorem posPart_eq_self {x : ℤ} (hx : 0 ≤ x) : (if 0 < x then x else 0) = x := by
  rcases lt_or_eq_of_le hx with h | h
  · simp [h]
  · simp [← h]

theorem selectLoop_cases (amountSatoshis : ℤ) (feeRate : ℚ)
    (changeAddr : Option DerivedAddress) :
    ∀ (l selected : List UTXO) (totalInputValue : ℤ) (r : CoinSelectionResult),
      selectLoop amountSatoshis feeRate changeAddr l selected totalInputValue = some r →
      (DUST_THRESHOLD ≤
          r.totalInputValue - amountSatoshis -
            calculateFee r.selectedUtxos.length 2 feeRate ∧
        r.fee = calculateFee r.selectedUtxos.length 2 feeRate ∧
        r.changeAmount = r.totalInputValue - amountSatoshis - r.fee ∧
        r.changeAddress = changeAddr ∧ r.dustAddedToFee = 0) ∨
      (r.totalInputValue - amountSatoshis -
          calculateFee r.selectedUtxos.length 2 feeRate < DUST_THRESHOLD ∧
        0 ≤ r.totalInputValue - amountSatoshis -
          calculateFee r.selectedUtxos.length 1 feeRate ∧
        r.fee = r.totalInputValue - amountSatoshis ∧
        r.changeAmount = 0 ∧ r.changeAddress = none ∧
        r.dustAddedToFee = r.totalInputValue - amountSatoshis -
          calculateFee r.selectedUtxos.length 1 feeRate) := by
  intro l
  induction l with
  | nil =>
    intro selected totalInputValue r h
    simp [selectLoop] at h
  | cons u rest ih =>
    intro selected totalInputValue r h
    simp only [selectLoop] at h
    by_cases h1 : DUST_THRESHOLD ≤
        totalInputValue + u.value - amountSatoshis -
          calculateFee (selected ++ [u]).length 2 feeRate
    · rw [if_pos h1] at h
      cases h
      left
      refine ⟨h1, rfl, by ring, rfl, rfl⟩
    · rw [if_neg h1] at h
      by_cases h2 : (0 : ℤ) ≤
          totalInputValue + u.value - amountSatoshis -
            calculateFee (selected ++ [u]).length 1 feeRate
      · rw [if_pos h2] at h
        cases h
        right
        exact ⟨lt_of_not_le h1, h2, rfl, rfl, rfl, posPart_eq_self h2⟩
      · rw [if_neg h2] at h
        exact ih (selected ++ [u]) (totalInputValue + u.value) r h

theorem selectLoop_take (amountSatoshis : ℤ) (feeRate : ℚ)
    (changeAddr : Option DerivedAddress) :
    ∀ (l selected : List UTXO) (totalInputValue : ℤ) (r : CoinSelectionResult),
      totalInputValue = (selected.map UTXO.value).sum →
      selectLoop amountSatoshis feeRate changeAddr l selected totalInputValue = some r →
      ∃ k, 0 < k ∧ r.selectedUtxos = selected ++ l.take k ∧
        r.totalInputValue = (r.selectedUtxos.map UTXO.value).sum := by
  intro l
  induction l with
  | nil =>
    intro selected totalInputValue r _ h
    simp [selectLoop] at h
  | cons u rest ih =>
    intro selected totalInputValue r hsum h
    simp only [selectLoop] at h
    have hsum' : totalInputValue + u.value = ((selected ++ [u]).map UTXO.value).sum := by
      simp [hsum]
    by_cases h1 : DUST_THRESHOLD ≤
        totalInputValue + u.value - amountSatoshis -
          calculateFee (selected ++ [u]).length 2 feeRate
    · rw [if_pos h1] at h
      cases h
      exact ⟨1, one_pos, by simp, hsum'⟩
    · rw [if_neg h1] at h
      by_cases h2 : (0 : ℤ) ≤
          totalInputValue + u.value - amountSatoshis -
            calculateFee (selected ++ [u]).length 1 feeRate
      · rw [if_pos h2] at h
        cases h
        exact ⟨1, one_pos, by simp, hsum'⟩
      · rw [if_neg h2] at h
        obtain ⟨k, hk, hsel, htot⟩ := ih (selected ++ [u]) (totalInputValue + u.value) r hsum' h
        exact ⟨k + 1, Nat.succ_pos k, by simpa [List.take_succ_cons] using hsel, htot⟩

theorem selectCoins_some (derive : String → ℤ → DerivedAddress) (s : WalletState)
    (amountSatoshis : ℤ) (feeRate : ℚ) (r : CoinSelectionResult)
    (h : selectCoins derive s amountSatoshis feeRate = some r) :
    (∃ k, 0 < k ∧
        r.selectedUtxos = (candidateUtxos feeRate (getSpendableUtxos s)).take k) ∧
    r.totalInputValue = (r.selectedUtxos.map UTXO.value).sum ∧
    ((DUST_THRESHOLD ≤
          r.totalInputValue - amountSatoshis -
            calculateFee r.selectedUtxos.length 2 feeRate ∧
        r.fee = calculateFee r.selectedUtxos.length 2 feeRate ∧
        r.changeAmount = r.totalInputValue - amountSatoshis - r.fee ∧
        r.changeAddress = getNextChangeAddress derive s ∧ r.dustAddedToFee = 0) ∨
      (r.totalInputValue - amountSatoshis -
          calculateFee r.selectedUtxos.length 2 feeRate < DUST_THRESHOLD ∧
        0 ≤ r.totalInputValue - amountSatoshis -
          calculateFee r.selectedUtxos.length 1 feeRate ∧
        r.fee = r.totalInputValue - amountSatoshis ∧
        r.changeAmount = 0 ∧ r.changeAddress = none ∧
        r.dustAddedToFee = r.totalInputValue - amountSatoshis -
          calculateFee r.selectedUtxos.length 1 feeRate)) := by
  simp only [selectCoins] at h
  split_ifs at h with h1 h2
  obtain ⟨k, hk, hsel, htot⟩ :=
    selectLoop_take amountSatoshis feeRate (getNextChangeAddress derive s)
      (candidateUtxos feeRate (getSpendableUtxos s)) [] 0 r (by simp) h
  refine ⟨⟨k, hk, by simpa using hsel⟩, htot, ?_⟩
  exact selectLoop_cases amountSatoshis feeRate (getNextChangeAddress derive s)
    (candidateUtxos feeRate (getSpendableUtxos s)) [] 0 r h

/-- C1: every non-null `selectCoins` result satisfies the conservation
equation `totalInputValue = amountSatoshis + fee + changeAmount` exactly,
in both the with-change branch and the dust-folded no-change branch. -/
theorem selectCoins_conservation (derive : String → ℤ → DerivedAddress)
    (s : WalletState) (amountSatoshis : ℤ) (feeRate : ℚ) (r : CoinSelectionResult)
    (h : selectCoins derive s amountSatoshis feeRate = some r) :
    r.totalInputValue = amountSatoshis + r.fee + r.changeAmount := by
  rcases (selectCoins_some derive s amountSatoshis feeRate r h).2.2 with
    ⟨_, _, hchg, _, _⟩ | ⟨_, _, hfee, hchg, _, _⟩
  · omega
  · omega

theorem calculateFee_nonneg (numInputs numOutputs : ℕ) {feeRate : ℚ}
    (h : 0 ≤ feeRate) : 0 ≤ calculateFee numInputs numOutputs feeRate :=
  Int.ceil_nonneg (mul_nonneg (by positivity) h)

theorem mem_utxos_of_mem_spendable (s : WalletState) {u : UTXO}
    (hu : u ∈ getSpendableUtxos s) : u ∈ s.utxos :=
  (List.mem_filter.mp (List.mem_filter.mp hu).1).1

theorem mem_spendable_of_mem_candidate (s : WalletState) (feeRate : ℚ) {u : UTXO}
    (hu : u ∈ candidateUtxos feeRate (getSpendableUtxos s)) :
    u ∈ getSpendableUtxos s ∧ 0 < effectiveValue feeRate u := by
  rw [candidateUtxos, List.mem_insertionSort] at hu
  have h' := List.mem_filter.mp hu
  exact ⟨h'.1, by simpa using h'.2⟩

/-- C3: whenever a non-null selection's with-change remainder is below the
dust threshold while the without-change remainder is non-negative, the
result has no change, the fee absorbs the whole remainder, and the slack
over the without-change fee is reported in `dustAddedToFee`. -/
theorem selectCoins_dustHandling (derive : String → ℤ → DerivedAddress)
    (s : WalletState) (amountSatoshis : ℤ) (feeRate : ℚ) (r : CoinSelectionResult)
    (h : selectCoins derive s amountSatoshis feeRate = some r)
    (hlow : r.totalInputValue - amountSatoshis -
      calculateFee r.selectedUtxos.length 2 feeRate < DUST_THRESHOLD)
    (hok : 0 ≤ r.totalInputValue - amountSatoshis -
      calculateFee r.selectedUtxos.length 1 feeRate) :
    r.changeAmount = 0 ∧ r.fee = r.totalInputValue - amountSatoshis ∧
      r.dustAddedToFee = r.totalInputValue - amountSatoshis -
        calculateFee r.selectedUtxos.length 1 feeRate := by
  rcases (selectCoins_some derive s amountSatoshis feeRate r h).2.2 with
    ⟨hge, _, _, _, _⟩ | ⟨_, _, hfee, hchg, _, hdust⟩
  · omega
  · exact ⟨hchg, hfee, hdust⟩

/-- C4: a non-null selection never contains a UTXO with non-positive
effective value, and its UTXOs are in descending effective-value order. -/
theorem selectCoins_economical_sorted (derive : String → ℤ → DerivedAddress)
    (s : WalletState) (amountSatoshis : ℤ) (feeRate : ℚ) (r : CoinSelectionResult)
    (h : selectCoins derive s amountSatoshis feeRate = some r) :
    (∀ u ∈ r.selectedUtxos, 0 < effectiveValue feeRate u) ∧
      List.Sorted (descByEff feeRate) r.selectedUtxos := by
  obtain ⟨⟨k, _, hsel⟩, _, _⟩ := selectCoins_some derive s amountSatoshis feeRate r h
  constructor
  · intro u hu
    rw [hsel] at hu
    exact (mem_spendable_of_mem_candidate s feeRate (List.mem_of_mem_take hu)).2
  · rw [hsel]
    exact List.Pairwise.sublist (List.take_sublist k _)
      (List.sorted_insertionSort (descByEff feeRate) _)

/-- C5 counterexample: in a session whose mnemonic is gone but whose UTXO
set is still populated, `selectCoins` returns a with-change result whose
`changeAmount` is 27910 while `changeAddress` is null, so the unconditional
present-iff-positive claim fails. -/
theorem selectCoins_changeAddress_counterexample :
    selectCoins wDerive nState 120000 10 = some nResult ∧
      ¬ (nResult.changeAddress ≠ none ↔ 0 < nResult.changeAmount) :=
  ⟨by norm_num [selectCoins, getSpendableUtxos, sessionSpendableUtxos, candidateUtxos,
      selectLoop, calculateFee, estimateTxSize, effectiveValue, descByEff,
      getNextChangeAddress, getUtxoKey, nState, wDerive, wUtxo1, wUtxo2, wUtxo3,
      nResult, DUST_THRESHOLD, TX_OVERHEAD, P2WPKH_INPUT_SIZE,
      P2WPKH_OUTPUT_SIZE, List.filter_cons, Int.ceil_ofNat],
    by simp [nResult]⟩

/-- C5 (amended): provided the wallet session holds a mnemonic, a non-null
selection carries a change address exactly when its change amount is
positive. -/
theorem selectCoins_changeAddress_iff (derive : String → ℤ → DerivedAddress)
    (s : WalletState) (amountSatoshis : ℤ) (feeRate : ℚ) (r : CoinSelectionResult)
    (hm : s.mnemonic ≠ none)
    (h : selectCoins derive s amountSatoshis feeRate = some r) :
    (r.changeAddress ≠ none ↔ 0 < r.changeAmount) := by
  have hd : DUST_THRESHOLD = 546 := rfl
  rcases (selectCoins_some derive s amountSatoshis feeRate r h).2.2 with
    ⟨hge, hfee, hchg, haddr, _⟩ | ⟨_, _, _, hchg, haddr, _⟩
  · constructor
    · intro _
      omega
    · intro _
      rw [haddr]
      obtain ⟨m, hm'⟩ := Option.ne_none_iff_exists'.mp hm
      simp [getNextChangeAddress, hm']
  · simp [haddr, hchg]

/-- C7: when the requested amount exceeds the total spendable value (with
non-negative UTXO values and fee rate), coin selection returns no result
— and, being a total function, it cannot throw. -/
theorem selectCoins_insufficientFunds (derive : String → ℤ → DerivedAddress)
    (s : WalletState) (amountSatoshis : ℤ) (feeRate : ℚ)
    (hval : ∀ u ∈ s.utxos, 0 ≤ u.value) (hrate : 0 ≤ feeRate)
    (hgt : ((getSpendableUtxos s).map UTXO.value).sum < amountSatoshis) :
    selectCoins derive s amountSatoshis feeRate = none := by
  cases hr : selectCoins derive s amountSatoshis feeRate with
  | none => rfl
  | some r =>
    exfalso
    obtain ⟨⟨k, _, hsel⟩, htot, hcases⟩ :=
      selectCoins_some derive s amountSatoshis feeRate r hr
    have hfee2 := calculateFee_nonneg r.selectedUtxos.length 2 hrate
    have hfee1 := calculateFee_nonneg r.selectedUtxos.length 1 hrate
    have hd : DUST_THRESHOLD = 546 := rfl
    have hamle : amountSatoshis ≤ r.totalInputValue := by
      rcases hcases with ⟨hge, _, _, _, _⟩ | ⟨_, hok, _, _, _, _⟩
      · omega
      · omega
    have hnn_cand : ∀ x ∈ (candidateUtxos feeRate (getSpendableUtxos s)).map UTXO.value,
        0 ≤ x := by
      intro x hx
      obtain ⟨u, hu, rfl⟩ := List.mem_map.mp hx
      exact hval u (mem_utxos_of_mem_spendable s
        (mem_spendable_of_mem_candidate s feeRate hu).1)
    have hnn_spend : ∀ x ∈ (getSpendableUtxos s).map UTXO.value, 0 ≤ x := by
      intro x hx
      obtain ⟨u, hu, rfl⟩ := List.mem_map.mp hx
      exact hval u (mem_utxos_of_mem_spendable s hu)
    have h1 : (r.selectedUtxos.map UTXO.value).sum ≤
        ((candidateUtxos feeRate (getSpendableUtxos s)).map UTXO.value).sum := by
      refine List.Sublist.sum_le_sum ?_ hnn_cand
      rw [hsel]
      exact (List.take_sublist k _).map UTXO.value
    have h2 : ((candidateUtxos feeRate (getSpendableUtxos s)).map UTXO.value).sum =
        (((getSpendableUtxos s).filter
          (fun u => 0 < effectiveValue feeRate u)).map UTXO.value).sum :=
      ((List.perm_insertionSort (descByEff feeRate) _).map UTXO.value).sum_eq
    have h3 : (((getSpendableUtxos s).filter
        (fun u => 0 < effectiveValue feeRate u)).map UTXO.value).sum ≤
        ((getSpendableUtxos s).map UTXO.value).sum :=
      List.Sublist.sum_le_sum ((List.filter_sublist _).map UTXO.value) hnn_spend
    omega

/-- C10: a non-null selection never underpays the fee rate: the fee is at
least the computed fee for the actual input and output count, and in the
with-change case it equals the two-output fee exactly. -/
theorem selectCoins_fee_bound (derive : String → ℤ → DerivedAddress)
    (s : WalletState) (amountSatoshis : ℤ) (feeRate : ℚ) (r : CoinSelectionResult)
    (h : selectCoins derive s amountSatoshis feeRate = some r) :
    calculateFee r.selectedUtxos.length
        (if 0 < r.changeAmount then 2 else 1) feeRate ≤ r.fee ∧
      (0 < r.changeAmount → r.fee = calculateFee r.selectedUtxos.length 2 feeRate) := by
  have hd : DUST_THRESHOLD = 546 := rfl
  rcases (selectCoins_some derive s amountSatoshis feeRate r h).2.2 with
    ⟨hge, hfee, hchg, _, _⟩ | ⟨_, hok, hfee, hchg, _, _⟩
  · have hpos : 0 < r.changeAmount := by omega
    rw [if_pos hpos]
    exact ⟨le_of_eq hfee.symm, fun _ => hfee⟩
  · have hneg : ¬ 0 < r.changeAmount := by omega
    rw [if_neg hneg]
    exact ⟨by omega, fun hp => absurd hp hneg⟩

/-!
### Witnesses at the concrete scenario
-/

theorem wEval : selectCoins wDerive wState 120000 10 = some wResult := by
  norm_num [selectCoins, getSpendableUtxos, sessionSpendableUtxos, candidateUtxos,
    selectLoop, calculateFee, estimateTxSize, effectiveValue, descByEff,
    getNextChangeAddress, getUtxoKey, wState, wDerive, wUtxo1, wUtxo2, wUtxo3,
    wResult, wChange, DUST_THRESHOLD, TX_OVERHEAD, P2WPKH_INPUT_SIZE,
    P2WPKH_OUTPUT_SIZE, List.filter_cons, Int.ceil_ofNat]

/-- Witness for C1 at the concrete scenario: selection returns a result
and the conservation equation holds for it. -/
theorem selectCoins_conservation_witness :
    selectCoins wDerive wState 120000 10 = some wResult ∧
      wResult.totalInputValue = 120000 + wResult.fee + wResult.changeAmount :=
  ⟨wEval, selectCoins_conservation wDerive wState 120000 10 wResult wEval⟩

/-- Witness for C4 at the concrete scenario: every selected UTXO has
positive effective value and the selection is sorted descending. -/
theorem selectCoins_economical_sorted_witness :
    selectCoins wDerive wState 120000 10 = some wResult ∧
      ((∀ u ∈ wResult.selectedUtxos, 0 < effectiveValue 10 u) ∧
        List.Sorted (descByEff 10) wResult.selectedUtxos) :=
  ⟨wEval, selectCoins_economical_sorted wDerive wState 120000 10 wResult wEval⟩

/-- Witness for C5 at the concrete scenario: the change address is present
and the change amount is positive. -/
theorem selectCoins_changeAddress_iff_witness :
    wState.mnemonic ≠ none ∧
      (wResult.changeAddress ≠ none ↔ 0 < wResult.changeAmount) :=
  ⟨by simp [wState],
    selectCoins_changeAddress_iff wDerive wState 120000 10 wResult
      (by simp [wState]) wEval⟩

/-- Witness for C10 at the concrete scenario. -/
theorem selectCoins_fee_bound_witness :
    selectCoins wDerive wState 120000 10 = some wResult ∧
      (calculateFee wResult.selectedUtxos.length
          (if 0 < wResult.changeAmount then 2 else 1) 10 ≤ wResult.fee ∧
        (0 < wResult.changeAmount →
          wResult.fee = calculateFee wResult.selectedUtxos.length 2 10)) :=
  ⟨wEval, selectCoins_fee_bound wDerive wState 120000 10 wResult wEval⟩

theorem dEval : selectCoins wDerive dState 198800 10 = some dResult := by
  norm_num [selectCoins, getSpendableUtxos, sessionSpendableUtxos, candidateUtxos,
    selectLoop, calculateFee, estimateTxSize, effectiveValue, descByEff,
    getNextChangeAddress, getUtxoKey, dState, wDerive, dUtxo, dResult, wChange,
    DUST_THRESHOLD, TX_OVERHEAD, P2WPKH_INPUT_SIZE, P2WPKH_OUTPUT_SIZE,
    List.filter_cons, Int.ceil_ofNat]

/-- Witness for C3 at the dust scenario. -/
theorem selectCoins_dustHandling_witness :
    selectCoins wDerive dState 198800 10 = some dResult ∧
      (dResult.changeAmount = 0 ∧
        dResult.fee = dResult.totalInputValue - 198800 ∧
        dResult.dustAddedToFee = dResult.totalInputValue - 198800 -
          calculateFee dResult.selectedUtxos.length 1 10) :=
  ⟨dEval,
    selectCoins_dustHandling wDerive dState 198800 10 dResult dEval
      (by norm_num [dResult, dUtxo, calculateFee, estimateTxSize, DUST_THRESHOLD,
        TX_OVERHEAD, P2WPKH_INPUT_SIZE, P2WPKH_OUTPUT_SIZE, Int.ceil_ofNat])
      (by norm_num [dResult, dUtxo, calculateFee, estimateTxSize,
        TX_OVERHEAD, P2WPKH_INPUT_SIZE, P2WPKH_OUTPUT_SIZE, Int.ceil_ofNat])⟩

/-- Witness for C7: asking for more than the 160000-satoshi spendable total
at the concrete scenario yields no selection. -/
theorem selectCoins_insufficientFunds_witness :
    ((getSpendableUtxos wState).map UTXO.value).sum < 200000 ∧
      selectCoins wDerive wState 200000 10 = none :=
  ⟨by norm_num [getSpendableUtxos, sessionSpendableUtxos, getUtxoKey, wState,
      wUtxo1, wUtxo2, wUtxo3, List.filter_cons],
    selectCoins_insufficientFunds wDerive wState 200000 10
      (by intro u hu
          simp only [wState, List.mem_cons, List.not_mem_nil, or_false] at hu
          rcases hu with rfl | rfl | rfl <;> norm_num [wUtxo1, wUtxo2, wUtxo3])
      (by norm_num)
      (by norm_num [getSpendableUtxos, sessionSpendableUtxos, getUtxoKey, wState,
        wUtxo1, wUtxo2, wUtxo3, List.filter_cons])⟩

/-!
### Locking, unlocking and broadcast failure
-/

theorem lockUtxos_single (locked : Finset String) (u : UTXO) :
    lockUtxos locked [u] = insert (getUtxoKey u) locked := rfl

theorem unlockUtxos_single (locked : Finset String) (u : UTXO) :
    unlockUtxos locked [u] = locked.erase (getUtxoKey u) := rfl

theorem mem_lockUtxos (x : String) (l : List UTXO) :
    ∀ locked : Finset String,
      (x ∈ lockUtxos locked l ↔ x ∈ locked ∨ ∃ u ∈ l, x = getUtxoKey u) := by
  induction l with
  | nil => intro locked; simp [lockUtxos]
  | cons u rest ih =>
    intro locked
    have hstep : lockUtxos locked (u :: rest) =
        lockUtxos (insert (getUtxoKey u) locked) rest := rfl
    rw [hstep, ih, Finset.mem_insert]
    constructor
    · rintro ((rfl | hx) | ⟨v, hv, rfl⟩)
      · exact Or.inr ⟨u, List.mem_cons_self u rest, rfl⟩
      · exact Or.inl hx
      · exact Or.inr ⟨v, List.mem_cons_of_mem u hv, rfl⟩
    · rintro (hx | ⟨v, hv, rfl⟩)
      · exact Or.inl (Or.inr hx)
      · rcases List.mem_cons.mp hv with rfl | hv'
        · exact Or.inl (Or.inl rfl)
        · exact Or.inr ⟨v, hv', rfl⟩

theorem mem_unlockUtxos (x : String) (l : List UTXO) :
    ∀ locked : Finset String,
      (x ∈ unlockUtxos locked l ↔ x ∈ locked ∧ ∀ u ∈ l, x ≠ getUtxoKey u) := by
  induction l with
  | nil => intro locked; simp [unlockUtxos]
  | cons u rest ih =>
    intro locked
    have hstep : unlockUtxos locked (u :: rest) =
        unlockUtxos (locked.erase (getUtxoKey u)) rest := rfl
    rw [hstep, ih, Finset.mem_erase]
    constructor
    · rintro ⟨⟨hne, hx⟩, hall⟩
      refine ⟨hx, ?_⟩
      intro v hv
      rcases List.mem_cons.mp hv with rfl | hv'
      · exact hne
      · exact hall v hv'
    · rintro ⟨hx, hall⟩
      exact ⟨⟨hall u (List.mem_cons_self u rest), hx⟩,
        fun v hv => hall v (List.mem_cons_of_mem u hv)⟩

/-- C8 counterexample: at a state where the UTXO is already locked, locking
it again and then unlocking it does not restore `getSpendableUtxos()` —
the UTXO was not spendable before and is spendable afterwards. -/
theorem lockUnlock_counterexample :
    ¬ (getSpendableUtxos
        (withLocked pState (unlockUtxos (lockUtxos pState.lockedUtxos [wUtxo1]) [wUtxo1])) =
      getSpendableUtxos pState) := by
  simp [getSpendableUtxos, sessionSpendableUtxos, lockUtxos, unlockUtxos,
    withLocked, pState, wUtxo1, List.filter_cons]

/-- C8 (amended): for a UTXO whose key is not already locked, locking then
unlocking restores `getSpendableUtxos()` exactly; and after locking
(without unlock) the UTXO never appears in `getSpendableUtxos()`. -/
theorem lockUnlock_roundtrip (s : WalletState) (u : UTXO)
    (h : getUtxoKey u ∉ s.lockedUtxos) :
    getSpendableUtxos
        (withLocked s (unlockUtxos (lockUtxos s.lockedUtxos [u]) [u])) =
      getSpendableUtxos s ∧
      u ∉ getSpendableUtxos (withLocked s (lockUtxos s.lockedUtxos [u])) := by
  constructor
  · have hx : unlockUtxos (lockUtxos s.lockedUtxos [u]) [u] = s.lockedUtxos := by
      rw [lockUtxos_single, unlockUtxos_single, Finset.erase_insert h]
    rw [hx]
    rfl
  · intro hu
    have h2 := of_decide_eq_true (List.mem_filter.mp hu).2
    rw [lockUtxos_single] at h2
    exact h2 (Finset.mem_insert_self _ _)

/-- Witness for the amended C8 at a state with nothing locked. -/
theorem lockUnlock_roundtrip_witness :
    getUtxoKey wUtxo1 ∉ wState.lockedUtxos ∧
      (getSpendableUtxos
          (withLocked wState (unlockUtxos (lockUtxos wState.lockedUtxos [wUtxo1]) [wUtxo1])) =
        getSpendableUtxos wState ∧
        wUtxo1 ∉ getSpendableUtxos (withLocked wState (lockUtxos wState.lockedUtxos [wUtxo1]))) :=
  ⟨by simp [wState], lockUnlock_roundtrip wState wUtxo1 (by simp [wState])⟩

/-- C6 counterexample: when a used UTXO was already locked before the call,
the failure path unlocks it entirely, so the spendable set is *not*
restored to its pre-broadcast state. -/
theorem broadcastTransaction_counterexample :
    ¬ (getSpendableUtxos
        (broadcastTransaction pState "deadbeef" [wUtxo1] (Except.error bErr)).1 =
      getSpendableUtxos pState) := by
  simp [broadcastTransaction, getSpendableUtxos, sessionSpendableUtxos, lockUtxos,
    unlockUtxos, pState, wUtxo1, List.filter_cons]

/-- C6 (amended): on a provider rejection, every used UTXO's key is removed
from the locked set, the provider's error message is returned in a failure
result (no exception: the embedding is total), and — provided no used UTXO
was already locked before the call — the spendable set is exactly its
pre-broadcast value. -/
theorem broadcastTransaction_failure (s : WalletState) (txHex : String)
    (usedUtxos : List UTXO) (e : ApiError) :
    (∀ u ∈ usedUtxos, getUtxoKey u ∉
        (broadcastTransaction s txHex usedUtxos (Except.error e)).1.lockedUtxos) ∧
      (broadcastTransaction s txHex usedUtxos (Except.error e)).2 =
        ⟨false, none, some (broadcastErrorMessage e)⟩ ∧
      ((∀ u ∈ usedUtxos, getUtxoKey u ∉ s.lockedUtxos) →
        getSpendableUtxos (broadcastTransaction s txHex usedUtxos (Except.error e)).1 =
          getSpendableUtxos s) := by
  refine ⟨?_, rfl, ?_⟩
  · intro u hu hmem
    exact ((mem_unlockUtxos _ _ _).mp hmem).2 u hu rfl
  · intro hdisj
    have hx : unlockUtxos (lockUtxos s.lockedUtxos usedUtxos) usedUtxos =
        s.lockedUtxos := by
      apply Finset.ext
      intro x
      rw [mem_unlockUtxos, mem_lockUtxos]
      constructor
      · rintro ⟨hx | ⟨u, hu, rfl⟩, hall⟩
        · exact hx
        · exact absurd rfl (hall u hu)
      · intro hx
        refine ⟨Or.inl hx, ?_⟩
        intro u hu he
        exact hdisj u hu (he ▸ hx)
    show getSpendableUtxos
        (withLocked s (unlockUtxos (lockUtxos s.lockedUtxos usedUtxos) usedUtxos)) =
      getSpendableUtxos s
    rw [hx]
    rfl

/-- Witness for the amended C6: a failing broadcast from a state with no
locks removes the key, surfaces the message, and restores spendability. -/
theorem broadcastTransaction_failure_witness :
    (∀ u ∈ [wUtxo1], getUtxoKey u ∉
        (broadcastTransaction wState "deadbeef" [wUtxo1] (Except.error bErr)).1.lockedUtxos) ∧
      (broadcastTransaction wState "deadbeef" [wUtxo1] (Except.error bErr)).2 =
        ⟨false, none, some (broadcastErrorMessage bErr)⟩ ∧
      getSpendableUtxos
          (broadcastTransaction wState "deadbeef" [wUtxo1] (Except.error bErr)).1 =
        getSpendableUtxos wState :=
  have h := broadcastTransaction_failure wState "deadbeef" [wUtxo1] bErr
  ⟨h.1, h.2.1, h.2.2 (by simp [wState])⟩

/-!
### getMaxSendableAmount
-/

/-- C9 counterexample: with one 10-satoshi spendable UTXO at fee rate 1,
the fee for one input and one output is 110, the claimed formula gives
−100, but the code clamps the result to 0. -/
theorem getMaxSendableAmount_counterexample :
    ¬ (getMaxSendableAmount mState 1 =
        ((getSpendableUtxos mState).map UTXO.value).sum -
          calculateFee (getSpendableUtxos mState).length 1 1) := by
  norm_num [getMaxSendableAmount, getSpendableUtxos, sessionSpendableUtxos,
    mState, calculateFee, estimateTxSize, TX_OVERHEAD, P2WPKH_INPUT_SIZE,
    P2WPKH_OUTPUT_SIZE, List.filter_cons, Int.ceil_ofNat]

/-- C9 (amended): for a non-empty spendable set, `getMaxSendableAmount`
equals the total spendable value minus the all-inputs one-output fee,
clamped below at zero. -/
theorem getMaxSendableAmount_eq (s : WalletState) (feeRate : ℚ)
    (h : getSpendableUtxos s ≠ []) :
    getMaxSendableAmount s feeRate =
      max 0 (((getSpendableUtxos s).map UTXO.value).sum -
        calculateFee (getSpendableUtxos s).length 1 feeRate) := by
  have h' : ¬ (getSpendableUtxos s).isEmpty = true := by
    simpa [List.isEmpty_iff] using h
  simp only [getMaxSendableAmount]
  rw [if_neg h']

/-- Witness for the amended C9 at the fee-exceeds-value state: the clamped
formula evaluates to 0, matching the code. -/
theorem getMaxSendableAmount_eq_witness :
    getSpendableUtxos mState ≠ [] ∧
      getMaxSendableAmount mState 1 =
        max 0 (((getSpendableUtxos mState).map UTXO.value).sum -
          calculateFee (getSpendableUtxos mState).length 1 1) :=
  ⟨by norm_num [getSpendableUtxos, sessionSpendableUtxos, mState, List.filter_cons],
    getMaxSendableAmount_eq mState 1
      (by norm_num [getSpendableUtxos, sessionSpendableUtxos, mState, List.filter_cons])⟩

/-!
### The gap-limit scanner
-/

theorem scanLoop_step (derive : ℕ → DerivedAddress) (chain : String → ChainInfo)
    (fuel currentIndex consecutiveUnused : ℕ) (used : List AddressBalance) :
    scanLoop derive chain (fuel + 1) ⟨currentIndex, consecutiveUnused, used, false⟩ =
      scanLoop derive chain fuel
        (processBatchResult ⟨currentIndex, consecutiveUnused, used, false⟩
          (scanBatch derive chain currentIndex)) := rfl

/-- C2: against a chain client that reports transactions exactly at indices
0–4, the branch scan terminates (three batches suffice, fuel 5) with
`highestUsedIndex = 4` and `usedAddresses` exactly the records of indices
0–4; in general, `#processBatchResult` returns `done` at the first address
where `consecutiveUnused` reaches `GAP_LIMIT`, ignoring the rest of the
batch, and resets `consecutiveUnused` to 0 at each used address. -/
theorem scanBranch_gapLimit (derive : ℕ → DerivedAddress) (chain : String → ChainInfo)
    (hidx : ∀ i, (derive i).index = i)
    (htx : ∀ i, 0 < (chain (derive i).address).txCount ↔ i ≤ 4) :
    (scanBranch derive chain 5 =
        some ⟨(List.range 5).map (scanRecord derive chain), 4⟩ ∧
      ((List.range 5).map (scanRecord derive chain)).map AddressBalance.index =
        [0, 1, 2, 3, 4]) ∧
    (∀ (fallthroughIndex consecutiveUnused : ℕ) (used : List AddressBalance)
        (result : AddressBalance) (rest : List AddressBalance),
      GAP_LIMIT ≤ (if 0 < result.transactionCount then 0 else consecutiveUnused + 1) →
      processGo fallthroughIndex consecutiveUnused used (result :: rest) =
        ⟨result.index + 1,
          if 0 < result.transactionCount then 0 else consecutiveUnused + 1,
          if 0 < result.transactionCount then used ++ [result] else used, true⟩) ∧
    (∀ (fallthroughIndex consecutiveUnused : ℕ) (used : List AddressBalance)
        (result : AddressBalance) (rest : List AddressBalance),
      0 < result.transactionCount →
      processGo fallthroughIndex consecutiveUnused used (result :: rest) =
        processGo fallthroughIndex 0 (used ++ [result]) rest) := by
  have hr10 : List.range 10 = [0, 1, 2, 3, 4, 5, 6, 7, 8, 9] := rfl
  have hr5 : List.range 5 = [0, 1, 2, 3, 4] := rfl
  have hp0 := (htx 0).mpr (by norm_num)
  have hp1 := (htx 1).mpr (by norm_num)
  have hp2 := (htx 2).mpr (by norm_num)
  have hp3 := (htx 3).mpr (by norm_num)
  have hp4 := (htx 4).mpr (by norm_num)
  have hneg : ∀ i, 4 < i → ¬ 0 < (chain (derive i).address).txCount :=
    fun i hi hc => absurd ((htx i).mp hc) (by omega)
  have hn5 := hneg 5 (by norm_num)
  have hn6 := hneg 6 (by norm_num)
  have hn7 := hneg 7 (by norm_num)
  have hn8 := hneg 8 (by norm_num)
  have hn9 := hneg 9 (by norm_num)
  have hn10 := hneg 10 (by norm_num)
  have hn11 := hneg 11 (by norm_num)
  have hn12 := hneg 12 (by norm_num)
  have hn13 := hneg 13 (by norm_num)
  have hn14 := hneg 14 (by norm_num)
  have hn15 := hneg 15 (by norm_num)
  have hn16 := hneg 16 (by norm_num)
  have hn17 := hneg 17 (by norm_num)
  have hn18 := hneg 18 (by norm_num)
  have hn19 := hneg 19 (by norm_num)
  have hn20 := hneg 20 (by norm_num)
  have hn21 := hneg 21 (by norm_num)
  have hn22 := hneg 22 (by norm_num)
  have hn23 := hneg 23 (by norm_num)
  have hn24 := hneg 24 (by norm_num)
  have hb1 : processBatchResult ⟨0, 0, [], false⟩ (scanBatch derive chain 0) =
      ⟨10, 5, (List.range 5).map (scanRecord derive chain), false⟩ := by
    simp [processBatchResult, processGo, scanBatch, scanRecord, BATCH_SIZE,
      GAP_LIMIT, hr10, hr5, hidx, hp0, hp1, hp2, hp3, hp4, hn5, hn6, hn7, hn8, hn9]
  have hb2 : processBatchResult
        ⟨10, 5, (List.range 5).map (scanRecord derive chain), false⟩
        (scanBatch derive chain 10) =
      ⟨20, 15, (List.range 5).map (scanRecord derive chain), false⟩ := by
    simp [processBatchResult, processGo, scanBatch, scanRecord, BATCH_SIZE,
      GAP_LIMIT, hr10, hidx, hn10, hn11, hn12, hn13, hn14, hn15, hn16, hn17,
      hn18, hn19]
  have hb3 : processBatchResult
        ⟨20, 15, (List.range 5).map (scanRecord derive chain), false⟩
        (scanBatch derive chain 20) =
      ⟨25, 20, (List.range 5).map (scanRecord derive chain), true⟩ := by
    simp [processBatchResult, processGo, scanBatch, scanRecord, BATCH_SIZE,
      GAP_LIMIT, hr10, hidx, hn20, hn21, hn22, hn23, hn24]
  have s1 : scanLoop derive chain 5 ⟨0, 0, [], false⟩ =
      scanLoop derive chain 4
        (processBatchResult ⟨0, 0, [], false⟩ (scanBatch derive chain 0)) := rfl
  have s2 : scanLoop derive chain 4
        ⟨10, 5, (List.range 5).map (scanRecord derive chain), false⟩ =
      scanLoop derive chain 3
        (processBatchResult ⟨10, 5, (List.range 5).map (scanRecord derive chain), false⟩
          (scanBatch derive chain 10)) := rfl
  have s3 : scanLoop derive chain 3
        ⟨20, 15, (List.range 5).map (scanRecord derive chain), false⟩ =
      scanLoop derive chain 2
        (processBatchResult ⟨20, 15, (List.range 5).map (scanRecord derive chain), false⟩
          (scanBatch derive chain 20)) := rfl
  have hloop : scanLoop derive chain 5 ⟨0, 0, [], false⟩ =
      some ⟨25, 20, (List.range 5).map (scanRecord derive chain), true⟩ := by
    rw [s1, hb1, s2, hb2, s3, hb3]
    rfl
  have hmax : branchHighestIndex ((List.range 5).map (scanRecord derive chain)) = 4 := by
    norm_num [branchHighestIndex, hr5, scanRecord, hidx, max_def]
  refine ⟨⟨?_, ?_⟩, ?_, ?_⟩
  · simp only [scanBranch, hloop, Option.map_some']
    rw [hmax]
  · simp [hr5, scanRecord, hidx]
  · intro fallthroughIndex consecutiveUnused used result rest hgap
    simp only [processGo]
    rw [if_pos hgap]
  · intro fallthroughIndex consecutiveUnused used result rest hpos
    simp [processGo, hpos, GAP_LIMIT]

/-- Witness for C2: the synthetic client `cDerive`/`cChain` (used exactly
at indices 0–4) satisfies the hypotheses, and the scan stops as claimed. -/
theorem scanBranch_gapLimit_witness :
    (∀ i, (cDerive i).index = i) ∧
      (∀ i, 0 < (cChain (cDerive i).address).txCount ↔ i ≤ 4) ∧
      (scanBranch cDerive cChain 5 =
          some ⟨(List.range 5).map (scanRecord cDerive cChain), 4⟩ ∧
        ((List.range 5).map (scanRecord cDerive cChain)).map AddressBalance.index =
          [0, 1, 2, 3, 4]) :=
  have h1 : ∀ i, (cDerive i).index = i := fun _ => rfl
  have h2 : ∀ i, 0 < (cChain (cDerive i).address).txCount ↔ i ≤ 4 := by
    intro i
    by_cases h : i + 1 ≤ 5
    · simp only [cDerive, cChain, String.length, List.length_replicate]
      rw [if_pos h]
      constructor
      · intro _
        omega
      · intro _
        norm_num
    · simp only [cDerive, cChain, String.length, List.length_replicate]
      rw [if_neg h]
      constructor
      · intro hc
        exact absurd hc (by norm_num)
      · intro hle
        exact absurd hle (by omega)
  ⟨h1, h2, (scanBranch_gapLimit cDerive cChain h1 h2).1⟩

end CryptoWallet
